import Mathlib

/-!
Shallow embedding of `src/timesheet_transform.py` (functions
`build_records_from_timesheet` and `update_strategie_in_place`) and proofs
about the repository's normalisation and ledger-update pipeline.

Modelling conventions: machine floats are modelled as exact rationals (ℚ);
pandas/openpyxl cell values are modelled by explicit inductive value types;
calendar dates are modelled as proleptic-Gregorian day numbers; Python
exceptions escaping a function are modelled by `Except`.
-/

namespace ExcelDataTransform

attribute [local semireducible] Rat.add Rat.mul Rat.inv Rat.sub

/-- Whitespace as stripped by Python (ordinary ASCII whitespace plus the
non-breaking space). -/
def pyWS (c : Char) : Bool := c.isWhitespace || c = '\xA0'

/-- Strip leading and trailing `pyWS` characters from a character list. -/
def stripWS (l : List Char) : List Char :=
  ((l.dropWhile pyWS).reverse.dropWhile pyWS).reverse

/-- Python `str.strip()` (also the stripping done by `float`). -/
def pyStrip (s : String) : String := String.mk (stripWS s.data)

/-- Fuel-driven split of a character list at every non-overlapping leftmost
occurrence of the (non-empty) separator; with fuel at least the length of
the list this is Python `str.split(sep)`. -/
def splitSepFuel (sep : List Char) : ℕ → List Char → List Char → List (List Char)
  | _, acc, [] => [acc.reverse]
  | 0, acc, l => [acc.reverse ++ l]
  | fuel + 1, acc, c :: cs =>
      if sep.isPrefixOf (c :: cs) then
        acc.reverse :: splitSepFuel sep fuel [] ((c :: cs).drop sep.length)
      else splitSepFuel sep fuel (c :: acc) cs

/-- Python `s.split(sep)` for a non-empty separator. -/
def strSplitOn (s sep : String) : List String :=
  (splitSepFuel sep.data s.data.length [] s.data).map String.mk

/-- Split a character list at every whitespace character. -/
def splitWSAux : List Char → List Char → List (List Char)
  | acc, [] => [acc.reverse]
  | acc, c :: cs =>
      if pyWS c then acc.reverse :: splitWSAux [] cs
      else splitWSAux (c :: acc) cs

/-- Python `str.split()` with no argument: split on whitespace runs and drop
empty pieces. -/
def pySplit (s : String) : List String :=
  ((splitWSAux [] s.data).map String.mk).filter (fun t => decide (t ≠ ""))

/-- Numeric value of a digit list (most significant first). -/
def digitsToNat (l : List Char) : ℕ := l.foldl (fun n c => n * 10 + (c.toNat - 48)) 0

/-- Numeric value of a digit string. -/
def natOfDigits (s : String) : ℕ := digitsToNat s.data

/-- A non-empty all-digit string. -/
def allDigits (s : String) : Bool := !s.data.isEmpty && s.data.all Char.isDigit

/-- Day number of a proleptic-Gregorian date (valid for year ≥ 1), the
standard days-from-civil computation; models the identity of a
`datetime.date` for equality tests and day offsets. -/
def daysFromCivil (y m d : ℕ) : ℕ :=
  let y' := if m ≤ 2 then y - 1 else y
  let era := y' / 400
  let yoe := y' % 400
  let mp := (m + 9) % 12
  let doy := (153 * mp + 2) / 5 + d - 1
  let doe := yoe * 365 + yoe / 4 - yoe / 100 + doy
  era * 146097 + doe

/-- Gregorian leap-year test. -/
def isLeap (y : ℕ) : Bool := (y % 4 == 0 && y % 100 != 0) || y % 400 == 0

/-- Number of days in a month. -/
def daysInMonth (y m : ℕ) : ℕ :=
  if m == 2 then (if isLeap y then 29 else 28)
  else if m == 4 || m == 6 || m == 9 || m == 11 then 30
  else 31

/-- Validate a (day, month, year) triple and convert it to a day number. -/
def mkDate? (d m y : ℕ) : Option ℕ :=
  if 1 ≤ y && 1 ≤ m && m ≤ 12 && 1 ≤ d && d ≤ daysInMonth y m then
    some (daysFromCivil y m d)
  else none

/-- Models `pd.to_datetime(s, dayfirst=True)` on `d/m/y` slash-separated
strings: the day-first parse used for the `WeekRange` start date. Returns
`none` where pandas raises. -/
def parseDMY? (s : String) : Option ℕ :=
  match strSplitOn (pyStrip s) "/" with
  | [ds, ms, ys] =>
      if allDigits ds && allDigits ms && allDigits ys then
        mkDate? (natOfDigits ds) (natOfDigits ms) (natOfDigits ys)
      else none
  | _ => none

/-- Models default `pd.to_datetime(s)` on `m/d/y` slash-separated strings:
the month-first parse used on ledger date cells. Returns `none` where pandas
raises. -/
def parseMDY? (s : String) : Option ℕ :=
  match strSplitOn (pyStrip s) "/" with
  | [ms, ds, ys] =>
      if allDigits ms && allDigits ds && allDigits ys then
        mkDate? (natOfDigits ds) (natOfDigits ms) (natOfDigits ys)
      else none
  | _ => none

/-- Unsigned part of Python `float(str)` restricted to plain decimal
literals (digits with at most one point, at least one digit). -/
def pyFloatCore? (l : List Char) : Option ℚ :=
  match splitSepFuel ['.'] l.length [] l with
  | [ip] =>
      if !ip.isEmpty && ip.all Char.isDigit then some (digitsToNat ip : ℚ)
      else none
  | [ip, fp] =>
      if (ip.all Char.isDigit && fp.all Char.isDigit) &&
          !(ip.isEmpty && fp.isEmpty) then
        some ((digitsToNat ip : ℚ) + (digitsToNat fp : ℚ) / (10 : ℚ) ^ fp.length)
      else none
  | _ => none

/-- Models Python `float(s)` on a string: strip whitespace, optional sign,
then a decimal literal; `none` models the `ValueError` raised on anything
else. -/
def pyFloat? (s : String) : Option ℚ :=
  match stripWS s.data with
  | '-' :: rest => (pyFloatCore? rest).map (fun q => -q)
  | '+' :: rest => pyFloatCore? rest
  | l => pyFloatCore? l

/-- A pandas cell value as seen by the weekday-hours columns: missing/NaN,
a number, or text. -/
inductive CellVal where
  | na : CellVal
  | num : ℚ → CellVal
  | str : String → CellVal
deriving DecidableEq, Repr

/-- One raw row of the concatenated timesheet sheets: the `WeekRange` text,
the (possibly sheet-name-filled) `Codice Commessa`, the `Autore` text, and
the seven weekday columns Lunedì..Domenica (`none` = column absent, in which
case `row.get(day, 0)` yields the default `0`). -/
structure RawEntry where
  weekRange : String
  codiceCommessa : String
  autore : String
  days : Fin 7 → Option CellVal

/-- One pre-aggregation record appended to `records` in the source
(`DATA`, `COMMESSA`, `ORE`, `SURNAME`). -/
structure Contrib where
  data : ℕ
  commessa : String
  ore : ℚ
  surname : String
deriving DecidableEq, Repr

/-- One row of the aggregated output DataFrame `df_agg`
(`DATA`, `COMMESSA`, `ORE`, `SURNAME`). -/
structure DailyRecord where
  data : ℕ
  commessa : String
  ore : ℚ
  surname : String
deriving DecidableEq, Repr

/-- `commessa_map.get(k, k)`, where the map is the Python dict built by
`dict(zip(col0, col1))` (a later duplicate key overwrites an earlier one). -/
def commessaMapGet (cmap : List (String × String)) (k : String) : String :=
  match cmap.reverse.find? (fun p => p.1 == k) with
  | some p => p.2
  | none => k

/-- Lines 50-58 of the source: strip the `WeekRange` text, skip when
`" al "` is absent, unpack `start_str, _ = split(" al ")` (a 3-or-more-way
split raises and is caught, skipping the row), then parse the start date
day-first (a parse failure is caught, skipping the row). -/
def weekStart? (weekRange : String) : Option ℕ :=
  match strSplitOn (pyStrip weekRange) " al " with
  | [_] => none
  | [startStr, _] => parseDMY? startStr
  | _ => none

/-- Lines 65-66 of the source: `autore.split()[-1] if autore else "UNKNOWN"`
applied to the stripped author text. -/
def surnameOf (autoreRaw : String) : String :=
  if pyStrip autoreRaw = "" then "UNKNOWN"
  else ((pySplit (pyStrip autoreRaw)).getLast?).getD "UNKNOWN"

/-- Lines 70-78 of the source for one weekday column: `row.get(day, 0)`,
then `if pd.notna(hours) and float(hours) != 0.0` append a record.
`float` of unparsable text raises (`Except.error`), uncaught in the source. -/
def dayContrib (commessa surname : String) (start : ℕ) (v : Option CellVal)
    (offset : ℕ) : Except String (List Contrib) :=
  match v.getD (CellVal.num 0) with
  | .na => .ok []
  | .num q => if q = 0 then .ok [] else .ok [⟨start + offset, commessa, q, surname⟩]
  | .str s =>
      match pyFloat? s with
      | none => .error s
      | some q => if q = 0 then .ok [] else .ok [⟨start + offset, commessa, q, surname⟩]

/-- The weekday loop of lines 69-78, over a list of day offsets; an
exception raised for one day aborts the whole loop. -/
def daysContribs (commessa surname : String) (start : ℕ)
    (days : Fin 7 → Option CellVal) : List (Fin 7) → Except String (List Contrib)
  | [] => .ok []
  | i :: is =>
      match dayContrib commessa surname start (days i) i.val with
      | .error msg => .error msg
      | .ok c =>
          match daysContribs commessa surname start days is with
          | .error msg => .error msg
          | .ok cs => .ok (c ++ cs)

/-- Lines 50-78 of the source: all records contributed by one raw row. -/
def rowContribs (cmap : List (String × String)) (e : RawEntry) :
    Except String (List Contrib) :=
  match weekStart? e.weekRange with
  | none => .ok []
  | some start =>
      daysContribs (commessaMapGet cmap e.codiceCommessa) (surnameOf e.autore)
        start e.days (List.finRange 7)

/-- The `iterrows` loop of lines 48-78: concatenation of all rows'
contributions, aborting at the first uncaught exception. -/
def collectContribs (cmap : List (String × String)) :
    List RawEntry → Except String (List Contrib)
  | [] => .ok []
  | e :: es =>
      match rowContribs cmap e with
      | .error msg => .error msg
      | .ok c =>
          match collectContribs cmap es with
          | .error msg => .error msg
          | .ok cs => .ok (c ++ cs)

/-- The `(DATA, SURNAME)` group key of a contribution. -/
def contribKey (c : Contrib) : ℕ × String := (c.data, c.surname)

/-- The `(DATA, SURNAME)` key of an aggregated record. -/
def recKey (r : DailyRecord) : ℕ × String := (r.data, r.surname)

/-- Python `<` on strings, as a code-point lexicographic comparison of
character lists. -/
def charListLt : List Char → List Char → Bool
  | [], [] => false
  | [], _ :: _ => true
  | _ :: _, [] => false
  | a :: as, b :: bs =>
      if a.toNat < b.toNat then true
      else if b.toNat < a.toNat then false
      else charListLt as bs

/-- Python `<=` on strings. -/
def strLe (a b : String) : Prop := charListLt a.data b.data = true ∨ a = b

instance : DecidableRel strLe := fun a b => by
  unfold strLe; infer_instance

/-- Lexicographic order on `(DATA, SURNAME)` keys, the order in which pandas
`groupby` emits its (sorted) groups. -/
def keyLe (a b : ℕ × String) : Prop := a.1 < b.1 ∨ (a.1 = b.1 ∧ strLe a.2 b.2)

instance : DecidableRel keyLe := fun a b => by
  unfold keyLe; infer_instance

/-- Python `sorted` on strings (code-point lexicographic). -/
def sortedStrings (l : List String) : List String := l.insertionSort strLe

/-- Line 91 of the source: `"; ".join(sorted(set(x)))`. -/
def joinCommesse (codes : List String) : String :=
  String.intercalate "; " (sortedStrings codes.dedup)

/-- The contributions of one `(DATA, SURNAME)` group. -/
def groupOf (cs : List Contrib) (k : ℕ × String) : List Contrib :=
  cs.filter (fun c => decide (contribKey c = k))

/-- The aggregated row that `groupby.agg` produces for one group key. -/
def mkRec (cs : List Contrib) (k : ℕ × String) : DailyRecord :=
  { data := k.1
    commessa := joinCommesse ((groupOf cs k).map Contrib.commessa)
    ore := ((groupOf cs k).map Contrib.ore).sum
    surname := k.2 }

/-- Lines 90-93 of the source: `groupby(["DATA", "SURNAME"]).agg` with the
sorted-set join of `COMMESSA` and the sum of `ORE`, groups emitted in sorted
key order. -/
def aggregate (cs : List Contrib) : List DailyRecord :=
  (((cs.map contribKey).dedup).insertionSort keyLe).map (mkRec cs)

/-- `build_records_from_timesheet` (lines 9-96) on already-read rows: the
row loop followed by the `(DATA, SURNAME)` aggregation. An empty record
list yields the empty output. -/
def build_records_from_timesheet (cmap : List (String × String))
    (entries : List RawEntry) : Except String (List DailyRecord) :=
  match collectContribs cmap entries with
  | .error msg => .error msg
  | .ok cs => .ok (aggregate cs)

/-- An openpyxl date-cell value: text, a value with a `.date()` attribute
(modelled by its day number), or anything else. -/
inductive DateCellVal where
  | str : String → DateCellVal
  | dt : ℕ → DateCellVal
  | other : DateCellVal
deriving DecidableEq, Repr

/-- One ledger row from row 2 on: columns A (date), B (labor codes),
C (hours), and the remaining never-read columns. -/
structure Slot where
  dateCell : DateCellVal
  commessa : CellVal
  ore : CellVal
  rest : List CellVal
deriving DecidableEq, Repr

/-- One worksheet of the ledger workbook: its name (the surname), the header
row (row 1, never visited since `min_row=2`), and its slots in sheet order. -/
structure Sheet where
  name : String
  header : List CellVal
  slots : List Slot
deriving DecidableEq, Repr

/-- Lines 124-131 of the source: coerce a date cell to a calendar date.
Text is parsed with `pd.to_datetime` (skip the row on failure); a
datetime-like value contributes its `.date()`; any other value fails the
later membership test against the date index, so no update happens. -/
def coerceCellDate (v : DateCellVal) : Option ℕ :=
  match v with
  | .str s => parseMDY? s
  | .dt d => some d
  | .other => none

/-- Lines 133-144 of the source for one ledger row: if the coerced date is
present in the subset's date index, overwrite the labor-code and hours
cells (combining first when more than one subset row carries that date). -/
def updateSlot (subset : List DailyRecord) (sl : Slot) : Slot :=
  match coerceCellDate sl.dateCell with
  | none => sl
  | some d =>
      match subset.filter (fun r => decide (r.data = d)) with
      | [] => sl
      | [r] => { sl with commessa := .str r.commessa, ore := .num r.ore }
      | rs =>
          { sl with
            commessa := .str (joinCommesse (rs.map DailyRecord.commessa))
            ore := .num ((rs.map DailyRecord.ore).sum) }

/-- Line 113 of the source: `df_agg[df_agg["SURNAME"] == sheet_name]`. -/
def subsetFor (agg : List DailyRecord) (sheetName : String) : List DailyRecord :=
  agg.filter (fun r => decide (r.surname = sheetName))

/-- Lines 110-144 of the source for one worksheet: filter `df_agg` to the
rows whose `SURNAME` equals the sheet name; an empty subset leaves the sheet
untouched; otherwise every slot is processed by `updateSlot`. -/
def updateSheet (agg : List DailyRecord) (sh : Sheet) : Sheet :=
  if (subsetFor agg sh.name).isEmpty then sh
  else { sh with slots := sh.slots.map (updateSlot (subsetFor agg sh.name)) }

/-- `update_strategie_in_place` (lines 99-147) on an already-loaded
workbook: update every sheet; the save writes the mutated workbook back. -/
def update_strategie_in_place (agg : List DailyRecord) (wb : List Sheet) :
    List Sheet :=
  wb.map (updateSheet agg)

/-- The same raw entry with one weekday column removed (the column-absent
variant of an input row; `row.get` then yields the default `0`). -/
def eraseDay (e : RawEntry) (i : Fin 7) : RawEntry :=
  { e with days := fun j => if j = i then none else e.days j }

/-- A weekday cell value coerces (when it coerces at all) to a non-negative
number. -/
def cellNonnegB : Option CellVal → Bool
  | some (.num q) => decide (0 ≤ q)
  | some (.str s) =>
      match pyFloat? s with
      | some q => decide (0 ≤ q)
      | none => true
  | _ => true

/-- All seven weekday cells of a raw entry satisfy `cellNonnegB`. -/
def entryNonnegB (e : RawEntry) : Bool :=
  (List.finRange 7).all (fun i => cellNonnegB (e.days i))

/-- The labor-code mapping of the spec's worked example. -/
def cmapEx : List (String × String) := [("I112 - SYS - SA/RC", "23WP030 Sa-Rc")]

/-- A weekly row for the week of 2025-03-03 with a single Monday cell. -/
def mkEntry (code autore : String) (v : CellVal) : RawEntry :=
  { weekRange := "03/03/2025 al 09/03/2025"
    codiceCommessa := code
    autore := autore
    days := fun i => if i.val = 0 then some v else none }

/-- Day number of 2025-03-03. -/
def monday2025 : ℕ := daysFromCivil 2025 3 3

/-- The spec's worked example row: Monday 4h and Wednesday 3.5h. -/
def entryFava : RawEntry :=
  { weekRange := "03/03/2025 al 09/03/2025"
    codiceCommessa := "I112 - SYS - SA/RC"
    autore := "Pietro Fava"
    days := fun i =>
      if i.val = 0 then some (.num 4)
      else if i.val = 2 then some (.num (7/2)) else none }

/-- The contributions that `entryFava` produces under `cmapEx`. -/
def csFava : List Contrib :=
  [⟨739618, "23WP030 Sa-Rc", 4, "Fava"⟩, ⟨739620, "23WP030 Sa-Rc", 7/2, "Fava"⟩]

/-- A ledger sheet named with an upper-cased surname, holding one slot dated
2025-03-03. -/
def sheetROSSI : Sheet :=
  { name := "ROSSI", header := [], slots := [⟨.dt 739618, .na, .na, []⟩] }

/-- Rows whose authors differ only in case. -/
def entryRossi1 : RawEntry := mkEntry "C1" "Maria Rossi" (.num 4)

/-- See `entryRossi1`. -/
def entryRossi2 : RawEntry := mkEntry "C1" "MARIA ROSSI" (.num 4)

/-- A row whose Monday cell holds whitespace-only text. -/
def entryWS : RawEntry := mkEntry "C1" "Pietro Fava" (.str " ")

/-- A row whose Monday cell holds non-numeric text. -/
def entryBad : RawEntry := mkEntry "C1" "Pietro Fava" (.str "abc")

/-- A well-formed row: Monday 4h. -/
def entryGood : RawEntry := mkEntry "C1" "Pietro Fava" (.num 4)

/-- A second well-formed row by another author. -/
def entryAbba : RawEntry := mkEntry "C2" "Anna Abba" (.num 3)

/-- A row with a negative Monday hours value. -/
def entryNeg : RawEntry := mkEntry "C1" "Pietro Fava" (.num (-1))

/-- A row whose labor code matches a mapping key except for case. -/
def entryLower : RawEntry := mkEntry "i112 - sys - sa/rc" "Pietro Fava" (.num 4)

/-- A row whose week-range text contains the `" al "` delimiter twice, with a
valid day-first date before the first delimiter. -/
def entryTriple : RawEntry :=
  { entryGood with weekRange := "03/03/2025 al 09/03/2025 al 16/03/2025" }

/-- A row whose week-range text lacks the `" al "` delimiter. -/
def entryNoDelim : RawEntry := { entryGood with weekRange := "nodelim" }

/-- A slot is matched when its coerced date is carried by some record of the
sheet's subset of `df_agg`. -/
def slotMatched (subset : List DailyRecord) (sl : Slot) : Prop :=
  ∃ d, coerceCellDate sl.dateCell = some d ∧
    subset.filter (fun r => decide (r.data = d)) ≠ []

/-- Frame relation between an updated slot and the original slot: the date
cell and the never-visited columns survive, and an unmatched slot survives
whole. -/
def slotFrame (subset : List DailyRecord) (sl' sl : Slot) : Prop :=
  sl'.dateCell = sl.dateCell ∧ sl'.rest = sl.rest ∧
    (¬ slotMatched subset sl → sl' = sl)

/-- Frame relation between an updated sheet and the original sheet. -/
def sheetFrame (agg : List DailyRecord) (sh' sh : Sheet) : Prop :=
  sh'.name = sh.name ∧ sh'.header = sh.header ∧
    sh'.slots.length = sh.slots.length ∧
    List.Forall₂ (slotFrame (subsetFor agg sh.name)) sh'.slots sh.slots ∧
    (subsetFor agg sh.name = [] → sh' = sh)

/-! ### Order facts for the sort relations -/

theorem char_toNat_inj {a b : Char} (h : a.toNat = b.toNat) : a = b :=
  Char.ext (UInt32.ext h)

theorem strData_inj {a b : String} (h : a.data = b.data) : a = b := by
  cases a; cases b; cases h; rfl

theorem charListLt_trans : ∀ l1 l2 l3, charListLt l1 l2 = true →
    charListLt l2 l3 = true → charListLt l1 l3 = true
  | [], [], _, h1, _ => by simp [charListLt] at h1
  | [], _ :: _, [], _, h2 => by simp [charListLt] at h2
  | [], _ :: _, _ :: _, _, _ => by simp [charListLt]
  | _ :: _, [], _, h1, _ => by simp [charListLt] at h1
  | _ :: _, _ :: _, [], _, h2 => by simp [charListLt] at h2
  | a :: as, b :: bs, c :: cs, h1, h2 => by
      simp only [charListLt] at h1 h2 ⊢
      by_cases hab : a.toNat < b.toNat <;> by_cases hbc : b.toNat < c.toNat
      · rw [if_pos (Nat.lt_trans hab hbc)]
      · rw [if_neg hbc] at h2
        by_cases hcb : c.toNat < b.toNat
        · rw [if_pos hcb] at h2; cases h2
        · have hb : b.toNat = c.toNat :=
            Nat.le_antisymm (Nat.le_of_not_lt hcb) (Nat.le_of_not_lt hbc)
          rw [if_pos (hb ▸ hab)]
      · rw [if_neg hab] at h1
        by_cases hba : b.toNat < a.toNat
        · rw [if_pos hba] at h1; cases h1
        · have ha : a.toNat = b.toNat :=
            Nat.le_antisymm (Nat.le_of_not_lt hba) (Nat.le_of_not_lt hab)
          rw [if_pos (ha ▸ hbc)]
      · rw [if_neg hab] at h1
        rw [if_neg hbc] at h2
        by_cases hba : b.toNat < a.toNat
        · rw [if_pos hba] at h1; cases h1
        · by_cases hcb : c.toNat < b.toNat
          · rw [if_pos hcb] at h2; cases h2
          · rw [if_neg hba] at h1
            rw [if_neg hcb] at h2
            have ha : a.toNat = b.toNat :=
              Nat.le_antisymm (Nat.le_of_not_lt hba) (Nat.le_of_not_lt hab)
            have hb : b.toNat = c.toNat :=
              Nat.le_antisymm (Nat.le_of_not_lt hcb) (Nat.le_of_not_lt hbc)
            rw [if_neg (show ¬ a.toNat < c.toNat by omega),
              if_neg (show ¬ c.toNat < a.toNat by omega)]
            exact charListLt_trans as bs cs h1 h2

theorem charListLt_asymm : ∀ l1 l2, charListLt l1 l2 = true →
    charListLt l2 l1 = true → False
  | [], [], h1, _ => by simp [charListLt] at h1
  | [], _ :: _, _, h2 => by simp [charListLt] at h2
  | _ :: _, [], h1, _ => by simp [charListLt] at h1
  | a :: as, b :: bs, h1, h2 => by
      simp only [charListLt] at h1 h2
      by_cases hab : a.toNat < b.toNat
      · rw [if_neg (Nat.lt_asymm hab), if_pos hab] at h2
        cases h2
      · rw [if_neg hab] at h1
        by_cases hba : b.toNat < a.toNat
        · rw [if_pos hba] at h1; cases h1
        · rw [if_neg hba] at h1
          rw [if_neg hba, if_neg hab] at h2
          exact charListLt_asymm as bs h1 h2

theorem charListLt_connex : ∀ l1 l2, charListLt l1 l2 = false →
    charListLt l2 l1 = false → l1 = l2
  | [], [], _, _ => rfl
  | [], _ :: _, h1, _ => by simp [charListLt] at h1
  | _ :: _, [], _, h2 => by simp [charListLt] at h2
  | a :: as, b :: bs, h1, h2 => by
      simp only [charListLt] at h1 h2
      by_cases hab : a.toNat < b.toNat
      · rw [if_pos hab] at h1; cases h1
      · by_cases hba : b.toNat < a.toNat
        · rw [if_pos hba] at h2; cases h2
        · rw [if_neg hab, if_neg hba] at h1
          rw [if_neg hba, if_neg hab] at h2
          have hab' : a = b :=
            char_toNat_inj
              (Nat.le_antisymm (Nat.le_of_not_lt hba) (Nat.le_of_not_lt hab))
          rw [hab', charListLt_connex as bs h1 h2]

instance : IsTrans String strLe where
  trans a b c hab hbc := by
    rcases hab with hab | hab
    · rcases hbc with hbc | hbc
      · exact Or.inl (charListLt_trans _ _ _ hab hbc)
      · exact Or.inl (hbc ▸ hab)
    · exact hab ▸ hbc

instance : IsAntisymm String strLe where
  antisymm a b hab hba := by
    rcases hab with hab | hab
    · rcases hba with hba | hba
      · exact (charListLt_asymm _ _ hab hba).elim
      · exact hba.symm
    · exact hab

instance : IsTotal String strLe where
  total a b := by
    by_cases h1 : charListLt a.data b.data = true
    · exact Or.inl (Or.inl h1)
    · by_cases h2 : charListLt b.data a.data = true
      · exact Or.inr (Or.inl h2)
      · have h1' : charListLt a.data b.data = false := by
          revert h1; cases charListLt a.data b.data <;> simp
        have h2' : charListLt b.data a.data = false := by
          revert h2; cases charListLt b.data a.data <;> simp
        exact Or.inl (Or.inr (strData_inj (charListLt_connex _ _ h1' h2')))

instance : IsTrans (ℕ × String) keyLe where
  trans a b c hab hbc := by
    rcases hab with h | ⟨he, hs⟩ <;> rcases hbc with h' | ⟨he', hs'⟩
    · exact Or.inl (lt_trans h h')
    · exact Or.inl (he' ▸ h)
    · exact Or.inl (he ▸ h')
    · exact Or.inr ⟨he.trans he', IsTrans.trans _ _ _ hs hs'⟩

instance : IsAntisymm (ℕ × String) keyLe where
  antisymm a b hab hba := by
    rcases hab with h | ⟨he, hs⟩ <;> rcases hba with h' | ⟨he', hs'⟩
    · exact absurd h' (lt_asymm h)
    · exact absurd h (he' ▸ lt_irrefl _)
    · exact absurd h' (he ▸ lt_irrefl _)
    · exact Prod.ext he (IsAntisymm.antisymm _ _ hs hs')

instance : IsTotal (ℕ × String) keyLe where
  total a b := by
    rcases lt_trichotomy a.1 b.1 with h | h | h
    · exact Or.inl (Or.inl h)
    · rcases IsTotal.total (r := strLe) a.2 b.2 with hs | hs
      · exact Or.inl (Or.inr ⟨h, hs⟩)
      · exact Or.inr (Or.inr ⟨h.symm, hs⟩)
    · exact Or.inr (Or.inl h)

/-! ### Helper lemmas about the updater -/

theorem updateSlot_dateCell (subset : List DailyRecord) (sl : Slot) :
    (updateSlot subset sl).dateCell = sl.dateCell := by
  rcases hc : coerceCellDate sl.dateCell with _ | d
  · simp only [updateSlot, hc]
  · rcases hm : subset.filter (fun r => decide (r.data = d)) with _ | ⟨r, _ | ⟨r2, rs⟩⟩ <;>
      simp only [updateSlot, hc, hm]

theorem updateSlot_rest (subset : List DailyRecord) (sl : Slot) :
    (updateSlot subset sl).rest = sl.rest := by
  rcases hc : coerceCellDate sl.dateCell with _ | d
  · simp only [updateSlot, hc]
  · rcases hm : subset.filter (fun r => decide (r.data = d)) with _ | ⟨r, _ | ⟨r2, rs⟩⟩ <;>
      simp only [updateSlot, hc, hm]

theorem updateSlot_of_not_matched (subset : List DailyRecord) (sl : Slot)
    (h : ¬ slotMatched subset sl) : updateSlot subset sl = sl := by
  rcases hc : coerceCellDate sl.dateCell with _ | d
  · simp only [updateSlot, hc]
  · rcases hm : subset.filter (fun r => decide (r.data = d)) with _ | ⟨r, _ | ⟨r2, rs⟩⟩
    · simp only [updateSlot, hc, hm]
    · exact absurd ⟨d, hc, by rw [hm]; simp⟩ h
    · exact absurd ⟨d, hc, by rw [hm]; simp⟩ h

theorem updateSlot_idem (subset : List DailyRecord) (sl : Slot) :
    updateSlot subset (updateSlot subset sl) = updateSlot subset sl := by
  by_cases hm : slotMatched subset sl
  · rcases hm with ⟨d, hc, hne⟩
    rcases hm' : subset.filter (fun r => decide (r.data = d)) with _ | ⟨r, _ | ⟨r2, rs⟩⟩
    · exact absurd hm' hne
    · have h1 : updateSlot subset sl =
          { sl with commessa := .str r.commessa, ore := .num r.ore } := by
        simp only [updateSlot, hc, hm']
      rw [h1]
      simp only [updateSlot, hc, hm']
    · have h1 : updateSlot subset sl =
          { sl with
            commessa := .str (joinCommesse ((r :: r2 :: rs).map DailyRecord.commessa))
            ore := .num (((r :: r2 :: rs).map DailyRecord.ore).sum) } := by
        simp only [updateSlot, hc, hm']
      rw [h1]
      simp only [updateSlot, hc, hm']
  · rw [updateSlot_of_not_matched _ _ hm, updateSlot_of_not_matched _ _ hm]

theorem updateSheet_name (agg : List DailyRecord) (sh : Sheet) :
    (updateSheet agg sh).name = sh.name := by
  unfold updateSheet
  by_cases h : (subsetFor agg sh.name).isEmpty <;> simp [h]

theorem updateSheet_idem (agg : List DailyRecord) (sh : Sheet) :
    updateSheet agg (updateSheet agg sh) = updateSheet agg sh := by
  by_cases h : (subsetFor agg sh.name).isEmpty
  · have h1 : updateSheet agg sh = sh := by unfold updateSheet; simp [h]
    rw [h1, h1]
  · have h1 : updateSheet agg sh =
        { sh with slots := sh.slots.map (updateSlot (subsetFor agg sh.name)) } := by
      unfold updateSheet; simp [h]
    rw [h1]
    unfold updateSheet
    simp only [h, if_neg, List.map_map]
    simp only [Bool.not_eq_true] at h ⊢
    rw [if_neg (by simp [h])]
    congr 1
    simp only [Function.comp_def]
    exact List.map_congr_left (fun sl _ => updateSlot_idem _ sl)

theorem slotFrame_of_updateSlot (subset : List DailyRecord) (sl : Slot) :
    slotFrame subset (updateSlot subset sl) sl :=
  ⟨updateSlot_dateCell subset sl, updateSlot_rest subset sl,
    fun h => updateSlot_of_not_matched subset sl h⟩

theorem slotFrame_refl (subset : List DailyRecord) (sl : Slot) :
    slotFrame subset sl sl := ⟨rfl, rfl, fun _ => rfl⟩

theorem sheetFrame_of_updateSheet (agg : List DailyRecord) (sh : Sheet) :
    sheetFrame agg (updateSheet agg sh) sh := by
  by_cases h : (subsetFor agg sh.name).isEmpty
  · have h1 : updateSheet agg sh = sh := by unfold updateSheet; simp [h]
    rw [h1]
    exact ⟨rfl, rfl, rfl, List.forall₂_same.mpr (fun sl _ => slotFrame_refl _ sl),
      fun _ => rfl⟩
  · have h1 : updateSheet agg sh =
        { sh with slots := sh.slots.map (updateSlot (subsetFor agg sh.name)) } := by
      unfold updateSheet; simp [h]
    rw [h1]
    refine ⟨rfl, rfl, by simp, ?_, ?_⟩
    · induction sh.slots with
      | nil => exact List.Forall₂.nil
      | cons sl sls ih =>
          exact List.Forall₂.cons (slotFrame_of_updateSlot _ sl) ih
    · intro hempty
      rw [hempty] at h
      exact absurd rfl h

/-- C6: `update` is idempotent — applying it twice with the same record set
yields exactly the ledger state of applying it once. The matched slots are
looked up through their (never overwritten) date cells, so the second pass
rewrites the same cells with the same values. -/
theorem update_idempotent (agg : List DailyRecord) (wb : List Sheet) :
    update_strategie_in_place agg (update_strategie_in_place agg wb) =
      update_strategie_in_place agg wb := by
  unfold update_strategie_in_place
  rw [List.map_map]
  exact List.map_congr_left (fun sh _ => updateSheet_idem agg sh)

/-- C7: frame property of `update` — sheets keep their count, names,
headers, slot counts and slot order; every slot keeps its date cell and its
columns beyond C; a slot in an unmatched sheet, or whose date matches no
record of its sheet's subset, is left entirely unchanged. -/
theorem update_frame (agg : List DailyRecord) (wb : List Sheet) :
    (update_strategie_in_place agg wb).length = wb.length ∧
      List.Forall₂ (sheetFrame agg) (update_strategie_in_place agg wb) wb := by
  constructor
  · unfold update_strategie_in_place
    exact List.length_map wb (updateSheet agg)
  · unfold update_strategie_in_place
    induction wb with
    | nil => exact List.Forall₂.nil
    | cons sh shs ih =>
        exact List.Forall₂.cons (sheetFrame_of_updateSheet agg sh) ih

/-! ### Helper lemmas about the normalizer -/

theorem insertionSort_perm_eq {α : Type} (r : α → α → Prop) [DecidableRel r]
    [IsTotal α r] [IsTrans α r] [IsAntisymm α r] {l1 l2 : List α}
    (h : l1.Perm l2) : l1.insertionSort r = l2.insertionSort r :=
  List.eq_of_perm_of_sorted
    ((List.perm_insertionSort r l1).trans (h.trans (List.perm_insertionSort r l2).symm))
    (List.sorted_insertionSort r l1) (List.sorted_insertionSort r l2)

theorem sortedStrings_perm_eq {l1 l2 : List String} (h : l1.Perm l2) :
    sortedStrings l1 = sortedStrings l2 :=
  insertionSort_perm_eq strLe h

theorem nodup_filter_eq_singleton {α : Type} [DecidableEq α] {l : List α}
    (hl : l.Nodup) {k : α} (hk : k ∈ l) :
    l.filter (fun x => decide (x = k)) = [k] := by
  induction l with
  | nil => cases hk
  | cons a t ih =>
      by_cases hak : a = k
      · subst hak
        have hnot : a ∉ t := (List.nodup_cons.mp hl).1
        have ht : t.filter (fun x => decide (x = a)) = [] := by
          rw [List.filter_eq_nil_iff]
          intro x hx
          simp only [decide_eq_true_eq]
          intro he; exact hnot (he ▸ hx)
        simp [List.filter_cons, ht]
      · have hkt : k ∈ t := by
          rcases List.mem_cons.mp hk with h | h
          · exact absurd h.symm hak
          · exact h
        have ht := ih (List.nodup_cons.mp hl).2 hkt
        simp [List.filter_cons, hak, ht]

theorem aggregate_filter_key (cs : List Contrib) (k : ℕ × String)
    (hk : k ∈ cs.map contribKey) :
    (aggregate cs).filter (fun r => decide (recKey r = k)) = [mkRec cs k] := by
  unfold aggregate
  rw [List.filter_map]
  have hkeys : ((cs.map contribKey).dedup.insertionSort keyLe).Nodup :=
    ((List.perm_insertionSort keyLe _).nodup_iff).mpr (List.nodup_dedup _)
  have hmem : k ∈ (cs.map contribKey).dedup.insertionSort keyLe :=
    ((List.perm_insertionSort keyLe _).mem_iff).mpr (List.mem_dedup.mpr hk)
  have hfun : ((fun r => decide (recKey r = k)) ∘ (mkRec cs)) =
      (fun k' => decide (k' = k)) := by
    funext k'
    exact decide_eq_decide.mpr (by rw [show recKey (mkRec cs k') = (k'.1, k'.2) from rfl,
      Prod.mk.eta])
  rw [hfun, nodup_filter_eq_singleton hkeys hmem]
  rfl

theorem collect_drop_entry (cmap : List (String × String)) (pre post : List RawEntry)
    (e : RawEntry) (h : rowContribs cmap e = .ok []) :
    collectContribs cmap (pre ++ e :: post) = collectContribs cmap (pre ++ post) := by
  induction pre with
  | nil =>
      simp only [List.nil_append, collectContribs, h]
      cases hp : collectContribs cmap post <;> simp
  | cons p t ih =>
      simp only [List.cons_append, collectContribs, List.append_eq, ih]

theorem collect_congr_entry (cmap : List (String × String)) (pre post : List RawEntry)
    (e e' : RawEntry) (h : rowContribs cmap e = rowContribs cmap e') :
    collectContribs cmap (pre ++ e :: post) = collectContribs cmap (pre ++ e' :: post) := by
  induction pre with
  | nil => simp only [List.nil_append, collectContribs, h]
  | cons p t ih => simp only [List.cons_append, collectContribs, List.append_eq, ih]

theorem build_drop_entry (cmap : List (String × String)) (pre post : List RawEntry)
    (e : RawEntry) (h : rowContribs cmap e = .ok []) :
    build_records_from_timesheet cmap (pre ++ e :: post) =
      build_records_from_timesheet cmap (pre ++ post) := by
  simp only [build_records_from_timesheet, collect_drop_entry cmap pre post e h]

theorem build_congr_entry (cmap : List (String × String)) (pre post : List RawEntry)
    (e e' : RawEntry) (h : rowContribs cmap e = rowContribs cmap e') :
    build_records_from_timesheet cmap (pre ++ e :: post) =
      build_records_from_timesheet cmap (pre ++ e' :: post) := by
  simp only [build_records_from_timesheet, collect_congr_entry cmap pre post e e' h]

theorem rowContribs_of_weekStart_none (cmap : List (String × String)) (e : RawEntry)
    (h : weekStart? e.weekRange = none) : rowContribs cmap e = .ok [] := by
  simp only [rowContribs, h]

theorem collect_perm (cmap : List (String × String)) {l1 l2 : List RawEntry}
    (hp : l1.Perm l2) :
    ∀ cs1, collectContribs cmap l1 = .ok cs1 →
      ∃ cs2, collectContribs cmap l2 = .ok cs2 ∧ cs1.Perm cs2 := by
  induction hp with
  | nil => exact fun cs1 h => ⟨cs1, h, List.Perm.refl _⟩
  | cons x p ih =>
      rename_i t1 t2
      intro cs1 h
      rcases hx : rowContribs cmap x with msg | c
      · simp only [collectContribs, hx] at h
        exact Except.noConfusion h
      · simp only [collectContribs, hx] at h
        rcases ht : collectContribs cmap t1 with msg | cs
        · rw [ht] at h; exact Except.noConfusion h
        · rw [ht] at h
          rcases ih cs ht with ⟨cs2', h2, hperm⟩
          refine ⟨c ++ cs2', by simp only [collectContribs, hx, h2], ?_⟩
          cases h
          exact List.Perm.append_left c hperm
  | swap x y t =>
      intro cs1 h
      rcases hx : rowContribs cmap x with msg | cx <;>
        rcases hy : rowContribs cmap y with msg' | cy <;>
        simp only [collectContribs, hx, hy] at h ⊢ <;>
        try exact Except.noConfusion h
      rcases ht : collectContribs cmap t with msg | ct
      · rw [ht] at h; exact Except.noConfusion h
      · rw [ht] at h
        cases h
        refine ⟨cx ++ (cy ++ ct), rfl, ?_⟩
        rw [← List.append_assoc, ← List.append_assoc]
        exact List.Perm.append List.perm_append_comm (List.Perm.refl ct)
  | trans p1 p2 ih1 ih2 =>
      intro cs1 h
      rcases ih1 cs1 h with ⟨csm, hm, pm⟩
      rcases ih2 csm hm with ⟨cs2, h2, p2'⟩
      exact ⟨cs2, h2, pm.trans p2'⟩

theorem mkRec_perm {cs1 cs2 : List Contrib} (h : cs1.Perm cs2) (k : ℕ × String) :
    mkRec cs1 k = mkRec cs2 k := by
  have hg : (groupOf cs1 k).Perm (groupOf cs2 k) := h.filter _
  unfold mkRec
  have h1 : joinCommesse ((groupOf cs1 k).map Contrib.commessa) =
      joinCommesse ((groupOf cs2 k).map Contrib.commessa) := by
    unfold joinCommesse
    exact congrArg _ (sortedStrings_perm_eq ((hg.map _).dedup))
  have h2 : ((groupOf cs1 k).map Contrib.ore).sum =
      ((groupOf cs2 k).map Contrib.ore).sum :=
    (hg.map _).sum_eq
  rw [h1, h2]

theorem aggregate_perm {cs1 cs2 : List Contrib} (h : cs1.Perm cs2) :
    aggregate cs1 = aggregate cs2 := by
  unfold aggregate
  rw [insertionSort_perm_eq keyLe ((h.map contribKey).dedup)]
  exact List.map_congr_left (fun k _ => mkRec_perm h k)

theorem dayContrib_nonneg (cf sn : String) (start : ℕ) (v : Option CellVal)
    (off : ℕ) (hv : cellNonnegB v = true) (cs : List Contrib)
    (h : dayContrib cf sn start v off = .ok cs) : ∀ c ∈ cs, 0 ≤ c.ore := by
  intro c hc
  match v with
  | none =>
      rw [show dayContrib cf sn start none off = .ok [] from rfl] at h
      cases h; cases hc
  | some .na =>
      simp only [dayContrib, Option.getD] at h
      cases h; cases hc
  | some (.num q) =>
      simp only [cellNonnegB, decide_eq_true_eq] at hv
      simp only [dayContrib, Option.getD] at h
      by_cases hq : q = 0
      · rw [if_pos hq] at h; cases h; cases hc
      · rw [if_neg hq] at h; cases h
        rcases List.mem_singleton.mp hc with rfl
        exact hv
  | some (.str s) =>
      rcases hf : pyFloat? s with _ | q
      · simp only [dayContrib, Option.getD, hf] at h
        exact Except.noConfusion h
      · simp only [cellNonnegB, hf, decide_eq_true_eq] at hv
        simp only [dayContrib, Option.getD, hf] at h
        by_cases hq : q = 0
        · rw [if_pos hq] at h; cases h; cases hc
        · rw [if_neg hq] at h; cases h
          rcases List.mem_singleton.mp hc with rfl
          exact hv

theorem daysContribs_nonneg (cf sn : String) (start : ℕ)
    (days : Fin 7 → Option CellVal)
    (hdays : ∀ i : Fin 7, cellNonnegB (days i) = true) :
    ∀ (l : List (Fin 7)) (cs : List Contrib),
      daysContribs cf sn start days l = .ok cs → ∀ c ∈ cs, 0 ≤ c.ore := by
  intro l
  induction l with
  | nil =>
      intro cs h c hc
      cases h; cases hc
  | cons i t ih =>
      intro cs h c hc
      rcases hd : dayContrib cf sn start (days i) i.val with msg | c1
      · simp only [daysContribs, hd] at h
        exact Except.noConfusion h
      · rcases ht : daysContribs cf sn start days t with msg | cts
        · simp only [daysContribs, hd, ht] at h
          exact Except.noConfusion h
        · simp only [daysContribs, hd, ht] at h
          cases h
          rcases List.mem_append.mp hc with hc1 | hc2
          · exact dayContrib_nonneg cf sn start (days i) i.val (hdays i) c1 hd c hc1
          · exact ih cts ht c hc2

theorem rowContribs_nonneg (cmap : List (String × String)) (e : RawEntry)
    (cs : List Contrib) (he : entryNonnegB e = true)
    (h : rowContribs cmap e = .ok cs) : ∀ c ∈ cs, 0 ≤ c.ore := by
  have hdays : ∀ i : Fin 7, cellNonnegB (e.days i) = true := by
    intro i
    exact List.all_eq_true.mp he i (List.mem_finRange i)
  rcases hw : weekStart? e.weekRange with _ | start
  · simp only [rowContribs, hw] at h
    cases h
    intro c hc; cases hc
  · simp only [rowContribs, hw] at h
    exact daysContribs_nonneg _ _ _ _ hdays _ cs h

theorem collect_nonneg (cmap : List (String × String)) :
    ∀ (entries : List RawEntry) (cs : List Contrib),
      entries.all entryNonnegB = true →
      collectContribs cmap entries = .ok cs → ∀ c ∈ cs, 0 ≤ c.ore := by
  intro entries
  induction entries with
  | nil => intro cs _ h c hc; cases h; cases hc
  | cons e t ih =>
      intro cs hn h c hc
      simp only [List.all_cons, Bool.and_eq_true] at hn
      rcases hr : rowContribs cmap e with msg | c1
      · simp only [collectContribs, hr] at h
        exact Except.noConfusion h
      · rcases ht : collectContribs cmap t with msg | cts
        · simp only [collectContribs, hr, ht] at h
          exact Except.noConfusion h
        · simp only [collectContribs, hr, ht] at h
          cases h
          rcases List.mem_append.mp hc with hc1 | hc2
          · exact rowContribs_nonneg cmap e c1 hn.1 hr c hc1
          · exact ih cts hn.2 ht c hc2

theorem aggregate_nonneg (cs : List Contrib) (h : ∀ c ∈ cs, 0 ≤ c.ore) :
    ∀ r ∈ aggregate cs, 0 ≤ r.ore := by
  intro r hr
  unfold aggregate at hr
  rcases List.mem_map.mp hr with ⟨k, _, rfl⟩
  show 0 ≤ ((groupOf cs k).map Contrib.ore).sum
  apply List.sum_nonneg
  intro x hx
  rcases List.mem_map.mp hx with ⟨c, hc, rfl⟩
  exact h c (List.mem_filter.mp hc).1

theorem daysContribs_congr (cf sn : String) (start : ℕ)
    (d1 d2 : Fin 7 → Option CellVal) (l : List (Fin 7))
    (h : ∀ i ∈ l, dayContrib cf sn start (d1 i) i.val =
      dayContrib cf sn start (d2 i) i.val) :
    daysContribs cf sn start d1 l = daysContribs cf sn start d2 l := by
  induction l with
  | nil => rfl
  | cons i t ih =>
      simp only [daysContribs]
      rw [h i (List.mem_cons_self i t),
        ih (fun j hj => h j (List.mem_cons_of_mem i hj))]

theorem rowContribs_eraseDay (cmap : List (String × String)) (e : RawEntry)
    (i : Fin 7)
    (h : e.days i = none ∨ e.days i = some (.num 0) ∨ e.days i = some .na) :
    rowContribs cmap e = rowContribs cmap (eraseDay e i) := by
  have hwr : (eraseDay e i).weekRange = e.weekRange := rfl
  have hcc : (eraseDay e i).codiceCommessa = e.codiceCommessa := rfl
  have hau : (eraseDay e i).autore = e.autore := rfl
  unfold rowContribs
  rw [hwr, hcc, hau]
  rcases hw : weekStart? e.weekRange with _ | start
  · rfl
  · apply daysContribs_congr
    intro j hj
    by_cases hji : j = i
    · subst hji
      have hz : (eraseDay e j).days j = none := by
        simp [eraseDay]
      rw [hz]
      rcases h with h | h | h <;> rw [h] <;>
        simp [dayContrib, Option.getD]
    · have hsame : (eraseDay e i).days j = e.days j := by
        simp [eraseDay, hji]
      rw [hsame]

/-! ### Claim theorems -/

/-- Claim C1: for every input on which `normalize` succeeds, each
`(date, person_key)` pair with at least one non-zero contribution owns
exactly one `DailyRecord`; its labor-codes field is the sorted set of the
contributing resolved codes joined with `"; "`, and its hours field is the
sum of the contributing hour values. -/
theorem normalize_unique_aggregation (cmap : List (String × String))
    (entries : List RawEntry) (cs : List Contrib) (recs : List DailyRecord)
    (hc : collectContribs cmap entries = .ok cs)
    (hb : build_records_from_timesheet cmap entries = .ok recs)
    (k : ℕ × String) (hk : k ∈ cs.map contribKey) :
    recs.filter (fun r => decide (recKey r = k)) =
      [{ data := k.1
         commessa := joinCommesse ((groupOf cs k).map Contrib.commessa)
         ore := ((groupOf cs k).map Contrib.ore).sum
         surname := k.2 }] := by
  have hrecs : recs = aggregate cs := by
    simp only [build_records_from_timesheet, hc] at hb
    exact (Except.ok.inj hb).symm
  rw [hrecs]
  exact aggregate_filter_key cs k hk

/-- Witness for C1 at the spec's worked example (one row, Monday 4h and
Wednesday 3.5h). -/
theorem normalize_unique_aggregation_witness :
    collectContribs cmapEx [entryFava] = .ok csFava ∧
    build_records_from_timesheet cmapEx [entryFava] = .ok (aggregate csFava) ∧
    (739618, "Fava") ∈ csFava.map contribKey ∧
    (aggregate csFava).filter (fun r => decide (recKey r = (739618, "Fava"))) =
      [{ data := 739618
         commessa := joinCommesse ((groupOf csFava (739618, "Fava")).map Contrib.commessa)
         ore := ((groupOf csFava (739618, "Fava")).map Contrib.ore).sum
         surname := "Fava" }] :=
  ⟨rfl, rfl, by decide,
    normalize_unique_aggregation cmapEx [entryFava] csFava (aggregate csFava)
      rfl rfl (739618, "Fava") (by decide)⟩

/-- Claim C2 counterexample: the code derives the person key without case
folding and matches ledger partitions by exact string equality, so
`"Maria Rossi"` and `"MARIA ROSSI"` obtain the distinct keys `"Rossi"` and
`"ROSSI"` and a record keyed `"Rossi"` leaves the partition named `"ROSSI"`
(with a matching dated slot) untouched. -/
theorem person_matching_case_sensitive_cex :
    build_records_from_timesheet [] [entryRossi1, entryRossi2] =
      .ok [⟨739618, "C1", 4, "ROSSI"⟩, ⟨739618, "C1", 4, "Rossi"⟩] ∧
    ("ROSSI" : String) ≠ "Rossi" ∧
    update_strategie_in_place [⟨739618, "C1", 4, "Rossi"⟩] [sheetROSSI] =
      [sheetROSSI] :=
  ⟨rfl, by decide, rfl⟩

/-- Claim C2 (amended): person matching is exact — two non-empty author
names whose last whitespace-separated tokens are equal (including case) get
the same person key, and `update` leaves a partition untouched whenever no
record's surname is exactly its name. -/
theorem person_matching_exact (a1 a2 : String) (recs : List DailyRecord)
    (sh : Sheet)
    (h : (pySplit (pyStrip a1)).getLast? = (pySplit (pyStrip a2)).getLast?)
    (hne1 : pyStrip a1 ≠ "") (hne2 : pyStrip a2 ≠ "")
    (hsh : recs.all (fun r => decide (r.surname ≠ sh.name)) = true) :
    surnameOf a1 = surnameOf a2 ∧
    update_strategie_in_place recs [sh] = [sh] := by
  constructor
  · simp [surnameOf, hne1, hne2, h]
  · have hsub : subsetFor recs sh.name = [] := by
      rw [subsetFor, List.filter_eq_nil_iff]
      intro r hr
      have hx := List.all_eq_true.mp hsh r hr
      simp only [decide_eq_true_eq] at hx ⊢
      exact hx
    unfold update_strategie_in_place
    simp [updateSheet, hsub]

/-- Witness for the amended C2: `"Maria Rossi"` and `"Anna Rossi"` share the
exact last token, and a record keyed `"Rossi"` leaves the `"ROSSI"`
partition unchanged. -/
theorem person_matching_exact_witness :
    surnameOf "Maria Rossi" = surnameOf "Anna Rossi" ∧
    update_strategie_in_place [⟨739620, "C1", 4, "Rossi"⟩] [sheetROSSI] =
      [sheetROSSI] :=
  person_matching_exact "Maria Rossi" "Anna Rossi"
    [⟨739620, "C1", 4, "Rossi"⟩] sheetROSSI (by decide) (by decide) (by decide)
    (by decide)

/-- Claim C3 counterexample: a whitespace-only Monday cell is fed to
`float`, which raises an uncaught `ValueError`, so `normalize` returns an
error rather than the output of the field-absent input. -/
theorem weekday_text_not_neutral_cex :
    build_records_from_timesheet [] [entryWS] = .error " " ∧
    build_records_from_timesheet [] [eraseDay entryWS 0] = .ok [] ∧
    build_records_from_timesheet [] [entryWS] ≠
      build_records_from_timesheet [] [eraseDay entryWS 0] := by
  refine ⟨rfl, rfl, ?_⟩
  intro h
  rw [show build_records_from_timesheet [] [entryWS] = .error " " from rfl,
    show build_records_from_timesheet [] [eraseDay entryWS 0] = .ok [] from rfl] at h
  exact Except.noConfusion h

/-- Claim C3 (amended): a weekday field whose value is numeric `0`, absent,
or NaN contributes no record and the output equals the output with that
field absent; whitespace-only or non-numeric text instead raises. -/
theorem weekday_zero_blank_neutral (cmap : List (String × String))
    (pre post : List RawEntry) (e : RawEntry) (i : Fin 7)
    (h : e.days i = none ∨ e.days i = some (.num 0) ∨ e.days i = some .na) :
    build_records_from_timesheet cmap (pre ++ e :: post) =
      build_records_from_timesheet cmap (pre ++ eraseDay e i :: post) :=
  build_congr_entry cmap pre post e (eraseDay e i) (rowContribs_eraseDay cmap e i h)

/-- Witness for the amended C3 at a concrete one-row input with an absent
Tuesday column. -/
theorem weekday_zero_blank_neutral_witness :
    build_records_from_timesheet [] ([] ++ entryGood :: []) =
      build_records_from_timesheet [] ([] ++ eraseDay entryGood 1 :: []) :=
  weekday_zero_blank_neutral [] [] [] entryGood 1 (Or.inl rfl)

/-- Claim C4 counterexample: a row with unparsable hours text aborts the
whole run — `normalize` returns an error instead of the aggregation of the
remaining well-formed rows. -/
theorem normalize_aborts_on_bad_hours_cex :
    build_records_from_timesheet [] [entryBad, entryGood] = .error "abc" ∧
    build_records_from_timesheet [] [entryGood] =
      .ok [⟨739618, "C1", 4, "Fava"⟩] :=
  ⟨rfl, rfl⟩

/-- Claim C4 (amended): a row with a bad or missing week-range or an
unparsable start date is skipped and the rest is aggregated, with no error;
a blank author is replaced by the `"UNKNOWN"` sentinel (the row is kept);
unparsable hours text, by contrast, raises. -/
theorem normalize_skips_bad_weekrange (cmap : List (String × String))
    (pre post : List RawEntry) (e : RawEntry) (a : String)
    (hw : weekStart? e.weekRange = none) (ha : pyStrip a = "") :
    build_records_from_timesheet cmap (pre ++ e :: post) =
      build_records_from_timesheet cmap (pre ++ post) ∧
    surnameOf a = "UNKNOWN" := by
  constructor
  · exact build_drop_entry cmap pre post e (rowContribs_of_weekStart_none cmap e hw)
  · simp [surnameOf, ha]

/-- Witness for the amended C4: a delimiter-free row inside a two-row input
is dropped without error. -/
theorem normalize_skips_bad_weekrange_witness :
    build_records_from_timesheet [] ([entryGood] ++ entryNoDelim :: []) =
      build_records_from_timesheet [] ([entryGood] ++ []) ∧
    surnameOf "  " = "UNKNOWN" :=
  normalize_skips_bad_weekrange [] [entryGood] [] entryNoDelim "  " rfl rfl

/-- Claim C5: `normalize` is invariant under permutation of its input rows —
successful outputs on permuted inputs carry the same multiset of
`DailyRecord`s. -/
theorem normalize_perm_invariant (cmap : List (String × String))
    {l1 l2 : List RawEntry} (recs1 recs2 : List DailyRecord)
    (hp : l1.Perm l2)
    (h1 : build_records_from_timesheet cmap l1 = .ok recs1)
    (h2 : build_records_from_timesheet cmap l2 = .ok recs2) :
    (recs1 : Multiset DailyRecord) = (recs2 : Multiset DailyRecord) := by
  rcases hc1 : collectContribs cmap l1 with msg | cs1
  · simp only [build_records_from_timesheet, hc1] at h1
    exact Except.noConfusion h1
  rcases hc2 : collectContribs cmap l2 with msg | cs2
  · simp only [build_records_from_timesheet, hc2] at h2
    exact Except.noConfusion h2
  simp only [build_records_from_timesheet, hc1, Except.ok.injEq] at h1
  simp only [build_records_from_timesheet, hc2, Except.ok.injEq] at h2
  rcases collect_perm cmap hp cs1 hc1 with ⟨cs2', hc2', hperm⟩
  have hcs : cs2' = cs2 := Except.ok.inj (hc2'.symm.trans hc2)
  subst hcs
  have : recs1 = recs2 := by
    rw [← h1, ← h2]
    exact aggregate_perm hperm
  rw [this]

/-- Witness for C5 at a two-row input and its swap. -/
theorem normalize_perm_invariant_witness :
    (([⟨739618, "C2", 3, "Abba"⟩, ⟨739618, "C1", 4, "Fava"⟩] :
        List DailyRecord) : Multiset DailyRecord) =
      (([⟨739618, "C2", 3, "Abba"⟩, ⟨739618, "C1", 4, "Fava"⟩] :
        List DailyRecord) : Multiset DailyRecord) :=
  normalize_perm_invariant []
    [⟨739618, "C2", 3, "Abba"⟩, ⟨739618, "C1", 4, "Fava"⟩]
    [⟨739618, "C2", 3, "Abba"⟩, ⟨739618, "C1", 4, "Fava"⟩]
    (List.Perm.swap entryAbba entryGood []) rfl rfl

/-- Claim C8 counterexample: dict lookup is case-sensitive, so a labor code
differing from a mapping key only in case passes through unchanged instead
of resolving to the canonical label. -/
theorem labor_code_case_sensitive_cex :
    commessaMapGet cmapEx "i112 - sys - sa/rc" = "i112 - sys - sa/rc" ∧
    ("i112 - sys - sa/rc" : String) ≠ "23WP030 Sa-Rc" ∧
    build_records_from_timesheet cmapEx [entryLower] =
      .ok [⟨739618, "i112 - sys - sa/rc", 4, "Fava"⟩] :=
  ⟨rfl, by decide, rfl⟩

/-- Claim C8 (amended): labor-code resolution is total with identity
fallback and exact (case-sensitive) lookup — a code exactly equal to no
mapping key passes through unchanged, and a code exactly equal to a mapping
key resolves to that key's canonical label, namely the value of its last
occurrence in the mapping table (the binding that survives
`dict(zip(col0, col1))`). -/
theorem labor_code_exact_resolution (cmap : List (String × String))
    (k : String) :
    ((∀ p ∈ cmap, p.1 ≠ k) → commessaMapGet cmap k = k) ∧
    (∀ pre post : List (String × String), ∀ v : String,
      cmap = pre ++ (k, v) :: post → (∀ p ∈ post, p.1 ≠ k) →
      commessaMapGet cmap k = v) := by
  constructor
  · intro hall
    have hf : cmap.reverse.find? (fun p => p.1 == k) = none := by
      rw [List.find?_eq_none]
      intro p hp
      simp only [beq_iff_eq]
      exact hall p (List.mem_reverse.mp hp)
    simp [commessaMapGet, hf]
  · intro pre post v hcmap hpost
    have hfpost : post.reverse.find? (fun p => p.1 == k) = none := by
      rw [List.find?_eq_none]
      intro p hp
      simp only [beq_iff_eq]
      exact hpost p (List.mem_reverse.mp hp)
    have hrev : cmap.reverse = post.reverse ++ (k, v) :: pre.reverse := by
      rw [hcmap, List.reverse_append, List.reverse_cons, List.append_assoc,
        List.singleton_append]
    have hf : cmap.reverse.find? (fun p => p.1 == k) = some (k, v) := by
      rw [hrev, List.find?_append, hfpost,
        List.find?_cons_of_pos _ (by simp)]
      rfl
    simp [commessaMapGet, hf]

/-- Witness for the amended C8: an unmapped code passes through unchanged,
and the worked example's mapped code resolves to its canonical label. -/
theorem labor_code_exact_resolution_witness :
    commessaMapGet cmapEx "unmapped" = "unmapped" ∧
    commessaMapGet cmapEx "I112 - SYS - SA/RC" = "23WP030 Sa-Rc" :=
  ⟨(labor_code_exact_resolution cmapEx "unmapped").1 (by decide),
    (labor_code_exact_resolution cmapEx "I112 - SYS - SA/RC").2 [] []
      "23WP030 Sa-Rc" rfl (by decide)⟩

/-- Claim C9 counterexample: nothing in the code rejects negative hour
values, so a row with Monday `-1` yields a record with negative hours. -/
theorem hours_can_be_negative_cex :
    build_records_from_timesheet [] [entryNeg] =
      .ok [⟨739618, "C1", -1, "Fava"⟩] ∧
    ¬ (0 : ℚ) ≤ (⟨739618, "C1", -1, "Fava"⟩ : DailyRecord).ore :=
  ⟨rfl, by decide⟩

/-- Claim C9 (amended): whenever every weekday cell of every input row
coerces to a non-negative number, every record produced by `normalize` has
non-negative hours. -/
theorem hours_nonneg_of_nonneg_inputs (cmap : List (String × String))
    (entries : List RawEntry) (recs : List DailyRecord)
    (hn : entries.all entryNonnegB = true)
    (hb : build_records_from_timesheet cmap entries = .ok recs) :
    ∀ r ∈ recs, 0 ≤ r.ore := by
  rcases hc : collectContribs cmap entries with msg | cs
  · simp only [build_records_from_timesheet, hc] at hb
    exact Except.noConfusion hb
  · simp only [build_records_from_timesheet, hc, Except.ok.injEq] at hb
    rw [← hb]
    exact aggregate_nonneg cs (collect_nonneg cmap entries cs hn hc)

/-- Witness for the amended C9 at a concrete non-negative input row. -/
theorem hours_nonneg_of_nonneg_inputs_witness :
    0 ≤ ((⟨739618, "C1", 4, "Fava"⟩ : DailyRecord)).ore :=
  hours_nonneg_of_nonneg_inputs [] [entryGood] [⟨739618, "C1", 4, "Fava"⟩]
    (by decide) rfl ⟨739618, "C1", 4, "Fava"⟩ (by decide)

/-- Claim C10: a raw entry whose week-range text contains `" al "` more than
once makes the tuple unpacking raise; the exception is caught and the whole
entry is skipped, contributing nothing, even when the text before the first
delimiter is a valid day-first date. -/
theorem multi_delimiter_row_skipped (cmap : List (String × String))
    (pre post : List RawEntry) (e : RawEntry)
    (h : 3 ≤ (strSplitOn (pyStrip e.weekRange) " al ").length) :
    build_records_from_timesheet cmap (pre ++ e :: post) =
      build_records_from_timesheet cmap (pre ++ post) := by
  have hw : weekStart? e.weekRange = none := by
    rcases hl : strSplitOn (pyStrip e.weekRange) " al " with _ | ⟨a, t1⟩
    · rw [hl] at h; simp at h
    rcases t1 with _ | ⟨b, t2⟩
    · rw [hl] at h; simp at h
    rcases t2 with _ | ⟨c, t3⟩
    · rw [hl] at h; simp at h
    · simp only [weekStart?, hl]
  exact build_drop_entry cmap pre post e (rowContribs_of_weekStart_none cmap e hw)

/-- Witness for C10: a doubled-delimiter row whose prefix is a valid
day-first date is dropped from a singleton input. -/
theorem multi_delimiter_row_skipped_witness :
    parseDMY? "03/03/2025" = some 739618 ∧
    build_records_from_timesheet [] ([] ++ entryTriple :: []) =
      build_records_from_timesheet [] ([] ++ []) :=
  ⟨rfl, multi_delimiter_row_skipped [] [] [] entryTriple (by decide)⟩

end ExcelDataTransform
